import Mathlib

/-!
Verification development for the `pipe-cxx` named-pipe framing library
(`src/UnixPipe.hxx`).  Strings are modelled as `List Char`; the C++
`std::string` search/replace primitives are translated below, and the
frame scanner, encoder, write loop and reader loop are shallow
embeddings of the corresponding member functions of `UnixPipe`.

Modelling notes:
* `std::string::find_first_of(str, pos)` searches for the first
  position at or after `pos` holding ANY character of `str` (a set
  search, not a substring search).  `UnixPipe::nextMessage` calls it
  where a substring search is evidently intended; the model keeps the
  set-search semantics of the source.
* `UnixPipe::escape` and `UnixPipe::unescape` declare `static` local
  variables `tagLength` and `escapedTag` computed from the `tag`
  argument of the FIRST call of the function in the process.  Later
  calls with a different tag keep the first call's values.  The model
  makes the static binding explicit as a `stTag` parameter:
  `escapeGen stTag tag s` is the behaviour of `escape(s, tag)` in a
  process whose first `escape` call used `stTag`.  In the program the
  first call of either function always uses `PREFIX` (innermost call
  of the chains in `write` / `nextMessage`).
* The iteration loops of `escape`/`unescape` and of the reader are
  written with an explicit fuel argument so that every definition is
  structurally recursive and kernel-evaluable.  Fuel `length + 1` is
  sufficient: each successful find/replace step shortens the unscanned
  suffix by at least 3 characters (every tag has length at least 3),
  and each frame consumed by the reader removes at least 26 bytes.
-/

namespace PipeCxx

/-- Convert a string literal to the `List Char` representation. -/
def strL (s : String) : List Char := s.data

/-- Source constant `UnixPipe::PREFIX` ("NAMEDPIPE"). -/
def PFX : List Char := strL "NAMEDPIPE"

/-- Source constant `UnixPipe::START`. -/
def START : List Char := strL "START"

/-- Source constant `UnixPipe::END`. -/
def END : List Char := strL "END"

/-- The local `prefix` string of `nextMessage`: `PREFIX + ":" + START + ":"`. -/
def markerStr : List Char := PFX ++ [':'] ++ START ++ [':']

/-- Position (relative) of the first occurrence of the substring
`needle` in a list; models `std::string::find` (needles used by the
source are always non-empty). -/
def findStrIn (needle : List Char) : List Char → Option Nat
  | [] => none
  | x :: xs =>
    if needle.isPrefixOf (x :: xs) then some 0 else (findStrIn needle xs).map (· + 1)

/-- `std::string::find(needle, k)`: absolute position of the first
occurrence of `needle` at or after `k`, `none` for `npos`. -/
def findStrFrom (needle s : List Char) (k : Nat) : Option Nat :=
  (findStrIn needle (s.drop k)).map (· + k)

/-- Position (relative) of the first occurrence of the character `c`;
models `std::string::find_first_of` with a single-character set. -/
def findCharIn (c : Char) : List Char → Option Nat
  | [] => none
  | x :: xs => if x = c then some 0 else (findCharIn c xs).map (· + 1)

/-- `std::string::find_first_of(c, k)` for a single character. -/
def findCharFrom (c : Char) (s : List Char) (k : Nat) : Option Nat :=
  (findCharIn c (s.drop k)).map (· + k)

/-- Position (relative) of the first character belonging to `set`;
models `std::string::find_first_of` with a multi-character set. -/
def findFirstOfIn (set : List Char) : List Char → Option Nat
  | [] => none
  | x :: xs => if x ∈ set then some 0 else (findFirstOfIn set xs).map (· + 1)

/-- `std::string::find_first_of(set, k)`. -/
def findFirstOfFrom (set s : List Char) (k : Nat) : Option Nat :=
  (findFirstOfIn set (s.drop k)).map (· + k)

/-- Loop body of `UnixPipe::escape`.  `stTag` is the tag captured by the
function-local `static` variables on the first call; `tag` is the
argument of the present call.  Each iteration finds `tag` at or after
`pos`, replaces `stTag.length` characters there by `'\' ++ stTag`
(the static `escapedTag`), and advances `pos` by `stTag.length + 1`. -/
def escapeLoop (stTag tag : List Char) : Nat → List Char → Nat → List Char
  | 0, s, _ => s
  | fuel + 1, s, pos =>
    match findStrFrom tag s pos with
    | none => s
    | some p =>
      escapeLoop stTag tag fuel
        (s.take p ++ '\\' :: stTag ++ s.drop (p + stTag.length))
        (p + stTag.length + 1)

/-- `UnixPipe::escape(s, tag)` in a process whose first `escape` call
used `stTag`. -/
def escapeGen (stTag tag s : List Char) : List Char :=
  escapeLoop stTag tag (s.length + 1) s 0

/-- Loop body of `UnixPipe::unescape`.  Each iteration finds the static
`escapedTag` (`'\' ++ stTag`) at or after `pos`, replaces
`stTag.length + 1` characters there by the `tag` argument, and advances
`pos` by `stTag.length + 1`. -/
def unescapeLoop (stTag tag : List Char) : Nat → List Char → Nat → List Char
  | 0, s, _ => s
  | fuel + 1, s, pos =>
    match findStrFrom ('\\' :: stTag) s pos with
    | none => s
    | some p =>
      unescapeLoop stTag tag fuel
        (s.take p ++ tag ++ s.drop (p + (stTag.length + 1)))
        (p + stTag.length + 1)

/-- `UnixPipe::unescape(s, tag)` in a process whose first `unescape`
call used `stTag`. -/
def unescapeGen (stTag tag s : List Char) : List Char :=
  unescapeLoop stTag tag (s.length + 1) s 0

/-- The escape chain of `UnixPipe::write`:
`escape(escape(escape(s, PREFIX), START), END)`.  The innermost call is
the first `escape` call of the process, so the statics are bound to
`PREFIX` for all three calls. -/
def escChain (s : List Char) : List Char :=
  escapeGen PFX END (escapeGen PFX START (escapeGen PFX PFX s))

/-- The unescape chain of `UnixPipe::nextMessage`:
`unescape(unescape(unescape(s, PREFIX), START), END)`, statics bound to
`PREFIX` by the innermost (first) call. -/
def unescChain (s : List Char) : List Char :=
  unescapeGen PFX END (unescapeGen PFX START (unescapeGen PFX PFX s))

/-- One decimal digit character. -/
def digitChar (d : Nat) : Char :=
  match d with
  | 0 => '0' | 1 => '1' | 2 => '2' | 3 => '3' | 4 => '4'
  | 5 => '5' | 6 => '6' | 7 => '7' | 8 => '8' | _ => '9'

/-- Accumulating digit production for `std::to_string` on `size_t`. -/
def natDigitsAux : Nat → Nat → List Char → List Char
  | 0, _, acc => acc
  | fuel + 1, n, acc =>
    if n = 0 then acc else natDigitsAux fuel (n / 10) (digitChar (n % 10) :: acc)

/-- `std::to_string` on a non-negative integer. -/
def natToChars (n : Nat) : List Char :=
  if n = 0 then ['0'] else natDigitsAux n n []

/-- Numeric value of a list of decimal digit characters. -/
def digitsToNat (ds : List Char) : Nat :=
  ds.foldl (fun a c => a * 10 + (c.toNat - 48)) 0

/-- Whitespace predicate used by `strtoul`. -/
def isSpaceCh (c : Char) : Bool :=
  c = ' ' || c = '\t' || c = '\n' || c = '\x0b' || c = '\x0c' || c = '\r'

/-- Model of `std::stoul` (base 10): skip leading whitespace, optional
sign, then at least one decimal digit, else `invalid_argument`
(modelled as `none`).  A `'-'` sign wraps modulo `2 ^ 64` as `strtoul`
does.  (`out_of_range`, which the source does not catch, is not
modelled; no claim exercises 20-digit length fields.) -/
def stoulModel (s : List Char) : Option Nat :=
  match s.dropWhile isSpaceCh with
  | [] => none
  | c :: r =>
    let ds := if c = '-' ∨ c = '+' then r.takeWhile Char.isDigit
              else (c :: r).takeWhile Char.isDigit
    if ds = [] then none
    else if c = '-' then some ((2 ^ 64 - digitsToNat ds % 2 ^ 64) % 2 ^ 64)
    else some (digitsToNat ds)

/-- Outcome of `UnixPipe::nextMessage`: `noFrame` models the empty
message with `totalLength == 0`; `hang` models the infinite marker loop
(the loop re-runs `find_first_of` from the same position whenever the
found position is preceded by a backslash, so it never advances);
`found` carries the unescaped id, unescaped content and `totalLength`. -/
inductive ScanOut
  | noFrame
  | hang
  | found (id content : List Char) (total : Nat)
deriving DecidableEq

/-- Model of `UnixPipe::nextMessage(input, filled)`.  Every search runs
over the whole `input` (as in the source, where the buffer string may
extend beyond `filled`); the reader model below passes exactly the
filled portion, which is faithful because the bytes beyond `filled` in
the source are always NUL and never match any search target.

`totalLength` is a `size_t` in the source, and `idLen`/`msgLen` can be
as large as `2 ^ 64 - 1` (via `stoul`'s minus-sign wrap), so the
arithmetic in which they participate wraps modulo `2 ^ 64`: the
computation of `total`, the two trailing-check positions derived from
it (`totalLength - strlen(END) - 1` and `totalLength - 1`, whose
`size_t` subtractions are modelled by adding `2 ^ 64` before the
truncated subtraction and reducing), and the start offset of the
extracted content (`posEndMsgLen + idLen + 2`).  The remaining position
arithmetic involves only in-buffer offsets and small constants and
cannot wrap for a buffer that fits in memory. -/
def nextMessage (input : List Char) (filled : Nat) : ScanOut :=
  if filled < markerStr.length then ScanOut.noFrame
  else
    match findFirstOfFrom markerStr input 0 with
    | none => ScanOut.noFrame
    | some p =>
      if p = 0 ∨ input.getD (p - 1) '?' ≠ '\\' then
        match findCharFrom ':' input (p + markerStr.length) with
        | none => ScanOut.noFrame
        | some p1 =>
          match findCharFrom ':' input (p1 + 1) with
          | none => ScanOut.noFrame
          | some p2 =>
            match stoulModel ((input.drop markerStr.length).take (p1 - markerStr.length)),
                  stoulModel ((input.drop (p1 + 1)).take (p2 - (p1 + 1))) with
            | some idLen, some msgLen =>
              let total := (p2 + idLen + msgLen + 4 + END.length) % 2 ^ 64
              if filled < total then ScanOut.noFrame
              else if findFirstOfFrom END input ((total + 2 ^ 64 - END.length - 1) % 2 ^ 64)
                      ≠ some ((total + 2 ^ 64 - END.length - 1) % 2 ^ 64) then ScanOut.noFrame
              else if input.getD ((total + 2 ^ 64 - 1) % 2 ^ 64) '?' ≠ ':' then ScanOut.noFrame
              else ScanOut.found
                (unescChain ((input.drop (p2 + 1)).take idLen))
                (unescChain ((input.drop ((p2 + idLen + 2) % 2 ^ 64)).take msgLen))
                total
            | _, _ => ScanOut.noFrame
      else ScanOut.hang

/-- The full frame built by `UnixPipe::write`:
`PREFIX ":" START ":" idLen ":" msgLen ":" escapedId ":" escapedMsg ":" END ":"`. -/
def encodeFrame (id msg : List Char) : List Char :=
  markerStr ++ natToChars (escChain id).length ++ [':']
    ++ natToChars (escChain msg).length ++ [':']
    ++ escChain id ++ [':'] ++ escChain msg ++ [':'] ++ END ++ [':']

/-- Pipe access type (source enum `PipeAccess`). -/
inductive PipeAccess
  | Read
  | Write
deriving DecidableEq

/-- Error taxonomy of the class: all three guard failures throw
`std::logic_error`; the spec names the access-mode ones
`AccessViolation`, the duplicate registration `DuplicateHandler`, and a
failed `::write` `ChannelFatal`. -/
inductive PipeErr
  | accessViolation
  | duplicateHandler
  | writeFailed
deriving DecidableEq

/-- Observable instance state of a `UnixPipe`: access mode, the
callback table (registered identifiers), whether the reader thread was
started, and the bytes transmitted so far over the descriptor. -/
structure PipeSt where
  access : PipeAccess
  callbacks : List (List Char)
  readerStarted : Bool
  transmitted : List Char
deriving DecidableEq

/-- `UnixPipe::start`: throws on a non-read pipe before any effect;
otherwise starts the reader thread if not yet running. -/
def startOp (st : PipeSt) : Except PipeErr Unit × PipeSt :=
  if st.access ≠ PipeAccess.Read then (Except.error PipeErr.accessViolation, st)
  else (Except.ok (), if st.readerStarted then st else { st with readerStarted := true })

/-- `UnixPipe::addCallback`: throws on a non-read pipe before any
effect; throws on a duplicate identifier; otherwise registers it. -/
def addCallbackOp (st : PipeSt) (id : List Char) : Except PipeErr Unit × PipeSt :=
  if st.access ≠ PipeAccess.Read then (Except.error PipeErr.accessViolation, st)
  else if id ∈ st.callbacks then (Except.error PipeErr.duplicateHandler, st)
  else (Except.ok (), { st with callbacks := st.callbacks ++ [id] })

/-- The write loop of `UnixPipe::write`.  `msgLen` is `msg.length()` at
loop time — the ESCAPED message length, since `escape` mutated `msg` in
place — and `fullLen` is `fullMsg.length()`.  `sched` is the channel
oracle: what each successive `::write` call returns (`none` = `-1`).
The loop runs `while (totalWritten < msgLen)`; each call requests
`fullLen - totalWritten` bytes.  Returns `none` if the oracle is
exhausted while the loop still runs, otherwise the final
`totalWritten` (or the thrown error). -/
def writeLoopModel (msgLen : Nat) (fullLen : Nat) : List (Option Nat) → Nat → Option (Except PipeErr Nat)
  | sched, tw =>
    if msgLen ≤ tw then some (Except.ok tw)
    else
      match sched with
      | [] => none
      | w :: rest =>
        match w with
        | none => some (Except.error PipeErr.writeFailed)
        | some k => writeLoopModel msgLen fullLen rest (tw + k)

/-- `UnixPipe::write(id, msg)`: access check (before any effect), then
the encode + write loop.  On loop exit the transmitted bytes are the
first `totalWritten` bytes of the frame. -/
def writeOp (st : PipeSt) (id msg : List Char) (sched : List (Option Nat)) :
    Except PipeErr Unit × PipeSt :=
  if st.access ≠ PipeAccess.Write then (Except.error PipeErr.accessViolation, st)
  else
    match writeLoopModel (escChain msg).length (encodeFrame id msg).length sched 0 with
    | none => (Except.ok (), st)
    | some (Except.error e) => (Except.error e, st)
    | some (Except.ok tw) =>
      (Except.ok (), { st with transmitted := st.transmitted ++ (encodeFrame id msg).take tw })

/-- The inner scan/dispatch loop of `UnixPipe::handleRead`: repeatedly
call `nextMessage`; while it yields a message with `totalLength > 0`
(the source's `msg.totalLength > 0` test), invoke the callback if the
id is registered and drop the consumed bytes; stop at the first
non-message.  Returns the remaining buffer, the list of decoded
(dispatched) messages, and the list of actual handler invocations.
Fuel `d.length + 1` suffices: every returned frame satisfies
`total ≤ d.length` (lemma `nextMessage_total_le_filled` below) and the
loop only consumes when `0 < total`, so each iteration strictly
shrinks the buffer. -/
def scanLoopCb (cb : List (List Char)) :
    Nat → List Char → List Char × List (List Char × List Char) × List (List Char × List Char)
  | 0, d => (d, [], [])
  | fuel + 1, d =>
    match nextMessage d d.length with
    | ScanOut.found i c t =>
      if 0 < t then
        let r := scanLoopCb cb fuel (d.drop t)
        (r.1, (i, c) :: r.2.1, (if i ∈ cb then [(i, c)] else []) ++ r.2.2)
      else (d, [], [])
    | _ => (d, [], [])

/-- One reader iteration's scan phase on buffer contents `d`
(`filled = d.length`; bytes beyond `filled` are NUL in the source and
match no search target, so they are omitted). -/
def readerScan (cb : List (List Char)) (d : List Char) :
    List Char × List (List Char × List Char) × List (List Char × List Char) :=
  scanLoopCb cb (d.length + 1) d

/-- Deliver successive read chunks to the reader: each chunk is
appended to the buffer (`filled += read`) and then the scan/dispatch
loop runs, as in `UnixPipe::handleRead`.  (The buffer-growth branch
only enlarges capacity and is observationally inert in the list
model.) -/
def deliverChunks (cb : List (List Char)) :
    List Char → List (List Char) →
    List Char × List (List Char × List Char) × List (List Char × List Char)
  | d, [] => (d, [], [])
  | d, ch :: rest =>
    let r1 := readerScan cb (d ++ ch)
    let r2 := deliverChunks cb r1.1 rest
    (r2.1, r1.2.1 ++ r2.2.1, r1.2.2 ++ r2.2.2)

/-- Modelled from the spec (for comparison only): replace every
occurrence of `pat` in `s` by `rep`, scanning left to right and
continuing right after each replacement. -/
def specReplaceAll (pat rep : List Char) : Nat → List Char → List Char
  | 0, s => s
  | _ + 1, [] => []
  | fuel + 1, x :: xs =>
    if pat.isPrefixOf (x :: xs) then rep ++ specReplaceAll pat rep fuel ((x :: xs).drop pat.length)
    else x :: specReplaceAll pat rep fuel xs

/-- Modelled from the spec: `unescape(s, tag)` as the contract states
it — every occurrence of `'\' ++ tag` replaced by `tag`. -/
def specUnescape (tag s : List Char) : List Char :=
  specReplaceAll ('\\' :: tag) tag (s.length + 1) s

/-- Modelled from the claim (for comparison only): the unescape chain
applied in the REVERSE token order END, START, PREFIX, as claim C3
asserts the decoder does.  Under the source's `static` semantics the
first call (with END) binds the statics. -/
def specRevUnescChain (s : List Char) : List Char :=
  unescapeGen END PFX (unescapeGen END START (unescapeGen END END s))

/-! Generic lemmas about the search primitives. -/

lemma findCharIn_not_mem {c : Char} : ∀ {l : List Char}, c ∉ l → findCharIn c l = none := by
  intro l
  induction l with
  | nil => intro _; rfl
  | cons x xs ih =>
    intro h
    have hx : ¬x = c := fun he => h (he ▸ List.mem_cons_self x xs)
    have hxs : c ∉ xs := fun hm => h (List.mem_cons_of_mem x hm)
    simp [findCharIn, hx, ih hxs]

lemma findCharIn_append_cons {c : Char} (b : List Char) :
    ∀ (a : List Char), c ∉ a → findCharIn c (a ++ c :: b) = some a.length := by
  intro a
  induction a with
  | nil => intro _; simp [findCharIn]
  | cons x xs ih =>
    intro h
    have hx : ¬x = c := fun he => h (he ▸ List.mem_cons_self x xs)
    have hxs : c ∉ xs := fun hm => h (List.mem_cons_of_mem x hm)
    simp [findCharIn, hx, ih hxs]

lemma findFirstOfIn_cons_mem {set : List Char} {x : Char} (xs : List Char) (h : x ∈ set) :
    findFirstOfIn set (x :: xs) = some 0 := by
  simp [findFirstOfIn, h]

lemma getD_eq_headD_drop : ∀ (l : List Char) (n : Nat) (d : Char),
    l.getD n d = (l.drop n).headD d := by
  intro l
  induction l with
  | nil => intro n d; cases n <;> rfl
  | cons x xs ih =>
    intro n d
    cases n with
    | zero => rfl
    | succ m => simp [ih m d]

/-! Digits produced by `std::to_string` and their parsing by `std::stoul`. -/

lemma digitChar_isDigit (d : Nat) : (digitChar d).isDigit = true := by
  unfold digitChar; split <;> decide

lemma digitChar_toNat {d : Nat} (h : d < 10) : (digitChar d).toNat = 48 + d := by
  interval_cases d <;> decide

lemma natDigitsAux_all_digits :
    ∀ (fuel n : Nat) (acc : List Char), (∀ c ∈ acc, c.isDigit = true) →
      ∀ c ∈ natDigitsAux fuel n acc, c.isDigit = true := by
  intro fuel
  induction fuel with
  | zero => intro n acc hacc c hc; exact hacc c hc
  | succ fu ih =>
    intro n acc hacc c hc
    by_cases hn : n = 0
    · simp only [natDigitsAux, hn, if_pos rfl] at hc
      exact hacc c hc
    · simp only [natDigitsAux, if_neg hn] at hc
      refine ih (n / 10) _ ?_ c hc
      intro x hx
      rcases List.mem_cons.mp hx with h1 | h2
      · exact h1 ▸ digitChar_isDigit _
      · exact hacc x h2

lemma natToChars_all_digits (n : Nat) : ∀ c ∈ natToChars n, c.isDigit = true := by
  unfold natToChars
  by_cases hn : n = 0
  · simp only [if_pos hn]; intro c hc; simp at hc; subst hc; decide
  · simp only [if_neg hn]
    exact natDigitsAux_all_digits n n [] (by intro c hc; cases hc)

lemma natDigitsAux_suffix :
    ∀ (fuel n : Nat) (acc : List Char), ∃ a, natDigitsAux fuel n acc = a ++ acc := by
  intro fuel
  induction fuel with
  | zero => intro n acc; exact ⟨[], rfl⟩
  | succ fu ih =>
    intro n acc
    by_cases hn : n = 0
    · exact ⟨[], by simp [natDigitsAux, hn]⟩
    · obtain ⟨a, ha⟩ := ih (n / 10) (digitChar (n % 10) :: acc)
      exact ⟨a ++ [digitChar (n % 10)], by simp [natDigitsAux, hn, ha]⟩

lemma natToChars_ne_nil (n : Nat) : natToChars n ≠ [] := by
  unfold natToChars
  by_cases hn : n = 0
  · simp [hn]
  · simp only [if_neg hn]
    obtain ⟨m, hm⟩ := Nat.exists_eq_succ_of_ne_zero hn
    subst hm
    simp only [natDigitsAux, if_neg hn]
    obtain ⟨a, ha⟩ := natDigitsAux_suffix m ((m + 1) / 10) [digitChar ((m + 1) % 10)]
    simp [ha]

lemma foldl_natDigitsAux :
    ∀ (fuel n : Nat), n ≤ fuel → ∀ (acc : List Char), ∃ w, 0 < w ∧ ∀ v,
      List.foldl (fun a c => a * 10 + (c.toNat - 48)) v (natDigitsAux fuel n acc)
        = List.foldl (fun a c => a * 10 + (c.toNat - 48)) (v * w + n) acc := by
  intro fuel
  induction fuel with
  | zero =>
    intro n hn acc
    interval_cases n
    exact ⟨1, Nat.one_pos, fun v => by simp [natDigitsAux]⟩
  | succ fu ih =>
    intro n hn acc
    by_cases h0 : n = 0
    · exact ⟨1, Nat.one_pos, fun v => by simp [natDigitsAux, h0]⟩
    · have hdiv : n / 10 ≤ fu := by
        have h1 : n / 10 < n := Nat.div_lt_self (Nat.pos_of_ne_zero h0) (by omega)
        omega
      obtain ⟨w, hw, hfold⟩ := ih (n / 10) hdiv (digitChar (n % 10) :: acc)
      refine ⟨w * 10, by positivity, fun v => ?_⟩
      rw [natDigitsAux, if_neg h0, hfold v]
      simp only [List.foldl_cons]
      have hmod : (digitChar (n % 10)).toNat = 48 + n % 10 :=
        digitChar_toNat (Nat.mod_lt _ (by omega))
      have harith : (v * w + n / 10) * 10 + ((digitChar (n % 10)).toNat - 48)
          = v * (w * 10) + n := by
        rw [hmod]
        have := Nat.div_add_mod n 10
        ring_nf
        omega
      rw [harith]

lemma digitsToNat_natToChars (n : Nat) : digitsToNat (natToChars n) = n := by
  unfold natToChars digitsToNat
  by_cases hn : n = 0
  · simp [hn]
  · simp only [if_neg hn]
    obtain ⟨w, _, hfold⟩ := foldl_natDigitsAux n n (le_refl n) []
    simpa using hfold 0

lemma takeWhile_all {p : Char → Bool} :
    ∀ {l : List Char}, (∀ c ∈ l, p c = true) → l.takeWhile p = l := by
  intro l
  induction l with
  | nil => intro _; rfl
  | cons x xs ih =>
    intro h
    have hx := h x (List.mem_cons_self x xs)
    simp [List.takeWhile_cons, hx, ih (fun c hc => h c (List.mem_cons_of_mem x hc))]

lemma stoulModel_natToChars (n : Nat) : stoulModel (natToChars n) = some n := by
  obtain ⟨c, r, hcr⟩ : ∃ c r, natToChars n = c :: r := by
    cases h : natToChars n with
    | nil => exact absurd h (natToChars_ne_nil n)
    | cons c r => exact ⟨c, r, rfl⟩
  have hdig : ∀ x ∈ natToChars n, x.isDigit = true := natToChars_all_digits n
  have hc : c.isDigit = true := hdig c (hcr ▸ List.mem_cons_self c r)
  have hspace : isSpaceCh c = false := by
    unfold isSpaceCh
    simp only [Bool.or_eq_false_iff, decide_eq_false_iff_not]
    refine ⟨⟨⟨⟨⟨?_, ?_⟩, ?_⟩, ?_⟩, ?_⟩, ?_⟩ <;>
      (intro he; rw [he] at hc; exact absurd hc (by decide))
  have hminus : ¬c = '-' := by intro he; rw [he] at hc; exact absurd hc (by decide)
  have hplus : ¬c = '+' := by intro he; rw [he] at hc; exact absurd hc (by decide)
  have hdrop : (natToChars n).dropWhile isSpaceCh = c :: r := by
    rw [hcr, List.dropWhile_cons, hspace]
    simp
  have htake : (c :: r).takeWhile Char.isDigit = c :: r := by
    apply takeWhile_all
    intro x hx
    exact hdig x (hcr ▸ hx)
  rw [stoulModel, hdrop]
  simp only [hminus, hplus, or_self, if_false, htake, if_neg (List.cons_ne_nil c r),
    if_neg hminus]
  rw [← hcr, digitsToNat_natToChars]

/-! Frame shape and navigation. -/

/-- The trailing `END ":"` of a frame. -/
def tail4 : List Char := 'E' :: 'N' :: 'D' :: [':']

/-- A frame with explicit length fields, in right-nested form. -/
def frameCore (d1 d2 eid emsg : List Char) : List Char :=
  markerStr ++ (d1 ++ ':' :: (d2 ++ ':' :: (eid ++ ':' :: (emsg ++ ':' :: tail4))))

/-- The wire frame for an already-escaped id and message. -/
def wireFrame (eid emsg : List Char) : List Char :=
  frameCore (natToChars eid.length) (natToChars emsg.length) eid emsg

lemma markerStr_len : markerStr.length = 16 := rfl

lemma END_eq : END = ['E', 'N', 'D'] := rfl

lemma encodeFrame_eq (id msg : List Char) :
    encodeFrame id msg = wireFrame (escChain id) (escChain msg) := by
  simp [encodeFrame, wireFrame, frameCore, tail4, END_eq, List.append_assoc]

lemma drop_seg {x : Char} {a : List Char} (b : List Char) {k : Nat} (h : k = a.length + 1) :
    (a ++ x :: b).drop k = b := by
  have h2 : a ++ x :: b = (a ++ [x]) ++ b := by simp
  have h3 : k = (a ++ [x]).length := by simp [h]
  rw [h2, h3, List.drop_left]

lemma take_seg {x : Char} {a : List Char} (b : List Char) {k : Nat} (h : k = a.length) :
    (a ++ x :: b).take k = a := by
  subst h; exact List.take_left a (x :: b)

lemma wireFrame_len (eid emsg : List Char) :
    (wireFrame eid emsg).length =
      (natToChars eid.length).length + (natToChars emsg.length).length
        + eid.length + emsg.length + 24 := by
  simp only [wireFrame, frameCore, tail4, List.length_append, List.length_cons,
    List.length_nil, markerStr_len]
  omega

lemma natToChars_len_pos (n : Nat) : 0 < (natToChars n).length :=
  List.length_pos.mpr (natToChars_ne_nil n)

lemma colon_not_mem_natToChars (n : Nat) : ':' ∉ natToChars n := by
  intro hm
  have := natToChars_all_digits n ':' hm
  exact absurd this (by decide)

lemma findFirstOfFrom_markerHead (Y : List Char) :
    findFirstOfFrom markerStr (markerStr ++ Y) 0 = some 0 := by
  have hm : markerStr = 'N' :: strL "AMEDPIPE:START:" := rfl
  rw [findFirstOfFrom, List.drop_zero, hm, List.cons_append,
    findFirstOfIn_cons_mem _ (by rw [← hm]; decide)]
  rfl

/-! Scanning a complete frame, and scanning a strict prefix of one. -/

lemma nextMessage_wireFrame (eid emsg : List Char)
    (hbig : (wireFrame eid emsg).length < 2 ^ 64) :
    nextMessage (wireFrame eid emsg) (wireFrame eid emsg).length
      = ScanOut.found (unescChain eid) (unescChain emsg) (wireFrame eid emsg).length := by
  have hD1 : natToChars eid.length = natToChars eid.length := rfl
  have hW : wireFrame eid emsg
      = markerStr ++ (natToChars eid.length ++ ':' :: (natToChars emsg.length ++ ':' ::
          (eid ++ ':' :: (emsg ++ ':' :: tail4)))) := rfl
  have hlen := wireFrame_len eid emsg
  have ha := natToChars_len_pos eid.length
  have hb := natToChars_len_pos emsg.length
  have hdrop16 : (wireFrame eid emsg).drop 16
      = natToChars eid.length ++ ':' :: (natToChars emsg.length ++ ':' ::
          (eid ++ ':' :: (emsg ++ ':' :: tail4))) := by
    rw [hW, show (16 : Nat) = markerStr.length from rfl, List.drop_left]
  have hfind0 : findFirstOfFrom markerStr (wireFrame eid emsg) 0 = some 0 := by
    rw [hW]; exact findFirstOfFrom_markerHead _
  have hfind1 : findCharFrom ':' (wireFrame eid emsg) 16
      = some ((natToChars eid.length).length + 16) := by
    rw [findCharFrom, hdrop16, findCharIn_append_cons _ _ (colon_not_mem_natToChars _)]
    rfl
  have hdrop17 : (wireFrame eid emsg).drop ((natToChars eid.length).length + 16 + 1)
      = natToChars emsg.length ++ ':' :: (eid ++ ':' :: (emsg ++ ':' :: tail4)) := by
    have h1 : (natToChars eid.length).length + 16 + 1 = 16 + ((natToChars eid.length).length + 1) := by omega
    rw [h1, ← List.drop_drop, hdrop16, drop_seg _ rfl]
  have hfind2 : findCharFrom ':' (wireFrame eid emsg) ((natToChars eid.length).length + 16 + 1)
      = some ((natToChars emsg.length).length + ((natToChars eid.length).length + 16 + 1)) := by
    rw [findCharFrom, hdrop17, findCharIn_append_cons _ _ (colon_not_mem_natToChars _)]
    rfl
  have hid : ((wireFrame eid emsg).drop 16).take (natToChars eid.length).length
      = natToChars eid.length := by
    rw [hdrop16]; exact take_seg _ rfl
  have hmsg : ((wireFrame eid emsg).drop ((natToChars eid.length).length + 16 + 1)).take
      (natToChars emsg.length).length = natToChars emsg.length := by
    rw [hdrop17]; exact take_seg _ rfl
  have hdropP2 : (wireFrame eid emsg).drop
      ((natToChars emsg.length).length + ((natToChars eid.length).length + 16 + 1) + 1)
      = eid ++ ':' :: (emsg ++ ':' :: tail4) := by
    have h1 : (natToChars emsg.length).length + ((natToChars eid.length).length + 16 + 1) + 1
        = ((natToChars eid.length).length + 16 + 1) + ((natToChars emsg.length).length + 1) := by omega
    rw [h1, ← List.drop_drop, hdrop17, drop_seg _ rfl]
  have hdropEid : ∀ k, k = (natToChars emsg.length).length + ((natToChars eid.length).length + 16 + 1) + 1
        + (eid.length + 1) →
      (wireFrame eid emsg).drop k = emsg ++ ':' :: tail4 := by
    intro k hk
    rw [hk, ← List.drop_drop, hdropP2, drop_seg _ rfl]
  have hdropT4 : ∀ k, k = (wireFrame eid emsg).length - 4 →
      (wireFrame eid emsg).drop k = tail4 := by
    intro k hk
    have h1 : k = ((natToChars emsg.length).length + ((natToChars eid.length).length + 16 + 1) + 1
        + (eid.length + 1)) + (emsg.length + 1) := by omega
    rw [h1, ← List.drop_drop, hdropEid _ rfl, drop_seg _ rfl]
  have hfindEND : ∀ k, k = (wireFrame eid emsg).length - 4 →
      findFirstOfFrom END (wireFrame eid emsg) k = some k := by
    intro k hk
    rw [findFirstOfFrom, hdropT4 k hk, tail4, findFirstOfIn_cons_mem _ (by decide)]
    simp
  have hgetD : ∀ k, k = (wireFrame eid emsg).length - 1 →
      (wireFrame eid emsg).getD k '?' = ':' := by
    intro k hk
    rw [getD_eq_headD_drop]
    have h1 : k = ((wireFrame eid emsg).length - 4) + 3 := by omega
    rw [h1, ← List.drop_drop, hdropT4 _ rfl]
    rfl
  have hstoul1 : stoulModel (natToChars eid.length) = some eid.length := stoulModel_natToChars _
  have hstoul2 : stoulModel (natToChars emsg.length) = some emsg.length := stoulModel_natToChars _
  have hELen : END.length = 3 := rfl
  -- now walk the definition
  unfold nextMessage
  rw [if_neg (by rw [markerStr_len]; omega)]
  rw [markerStr_len]
  split
  case _ h => rw [hfind0] at h; cases h
  case _ p h =>
    rw [hfind0] at h
    injection h with h
    subst h
    rw [if_pos (Or.inl rfl)]
    rw [Nat.zero_add]
    split
    case _ h => rw [hfind1] at h; cases h
    case _ p1 h =>
      rw [hfind1] at h
      injection h with h
      subst h
      split
      case _ h => rw [hfind2] at h; cases h
      case _ p2 h =>
        rw [hfind2] at h
        injection h with h
        subst h
        rw [Nat.add_sub_cancel, hid, hstoul1, Nat.add_sub_cancel, hmsg, hstoul2]
        simp only []
        rw [hELen]
        have hmod : ((natToChars emsg.length).length + ((natToChars eid.length).length + 16 + 1)
              + eid.length + emsg.length + 4 + 3) % 2 ^ 64 = (wireFrame eid emsg).length := by
          rw [show (natToChars emsg.length).length + ((natToChars eid.length).length + 16 + 1)
              + eid.length + emsg.length + 4 + 3 = (wireFrame eid emsg).length from by omega]
          exact Nat.mod_eq_of_lt hbig
        rw [hmod]
        have hwrapEnd : ((wireFrame eid emsg).length + 2 ^ 64 - 3 - 1) % 2 ^ 64
            = (wireFrame eid emsg).length - 4 := by
          rw [show (wireFrame eid emsg).length + 2 ^ 64 - 3 - 1
              = 2 ^ 64 + ((wireFrame eid emsg).length - 4) from by omega,
            Nat.add_mod_left]
          exact Nat.mod_eq_of_lt (by omega)
        have hwrapCol : ((wireFrame eid emsg).length + 2 ^ 64 - 1) % 2 ^ 64
            = (wireFrame eid emsg).length - 1 := by
          rw [show (wireFrame eid emsg).length + 2 ^ 64 - 1
              = 2 ^ 64 + ((wireFrame eid emsg).length - 1) from by omega,
            Nat.add_mod_left]
          exact Nat.mod_eq_of_lt (by omega)
        rw [if_neg (by omega)]
        rw [hwrapEnd]
        rw [if_neg (by
          rw [hfindEND _ rfl]
          simp)]
        rw [hwrapCol]
        rw [if_neg (by
          rw [hgetD _ rfl]
          simp)]
        rw [hdropP2]
        rw [take_seg _ rfl]
        have hmod2 : ((natToChars emsg.length).length + ((natToChars eid.length).length + 16 + 1)
              + eid.length + 2) % 2 ^ 64
            = (natToChars emsg.length).length + ((natToChars eid.length).length + 16 + 1)
              + eid.length + 2 := Nat.mod_eq_of_lt (by omega)
        rw [hmod2]
        have h2 : (natToChars emsg.length).length + ((natToChars eid.length).length + 16 + 1) + eid.length + 2
            = ((natToChars emsg.length).length + ((natToChars eid.length).length + 16 + 1) + 1) + (eid.length + 1) := by omega
        rw [h2, ← List.drop_drop, hdropP2, drop_seg _ rfl, take_seg _ rfl]

lemma nextMessage_wireFrame_take (eid emsg : List Char) (f : Nat)
    (hbig : (wireFrame eid emsg).length < 2 ^ 64)
    (hf : f < (wireFrame eid emsg).length) :
    nextMessage ((wireFrame eid emsg).take f) f = ScanOut.noFrame := by
  have hlen := wireFrame_len eid emsg
  have ha := natToChars_len_pos eid.length
  have hb := natToChars_len_pos emsg.length
  by_cases h16 : f < 16
  · unfold nextMessage
    rw [markerStr_len, if_pos h16]
  · have hW : wireFrame eid emsg
        = markerStr ++ (natToChars eid.length ++ ':' :: (natToChars emsg.length ++ ':' ::
            (eid ++ ':' :: (emsg ++ ':' :: tail4)))) := rfl
    have hT : (wireFrame eid emsg).take f
        = markerStr ++ (natToChars eid.length ++ ':' :: (natToChars emsg.length ++ ':' ::
            (eid ++ ':' :: (emsg ++ ':' :: tail4)))).take (f - 16) := by
      rw [hW, List.take_append_eq_append_take, markerStr_len,
        List.take_of_length_le (by rw [markerStr_len]; omega)]
    have hdrop16 : ((wireFrame eid emsg).take f).drop 16
        = (natToChars eid.length ++ ':' :: (natToChars emsg.length ++ ':' ::
            (eid ++ ':' :: (emsg ++ ':' :: tail4)))).take (f - 16) := by
      rw [hT, show (16 : Nat) = markerStr.length from rfl, List.drop_left]
    have hfind0 : findFirstOfFrom markerStr ((wireFrame eid emsg).take f) 0 = some 0 := by
      rw [hT]; exact findFirstOfFrom_markerHead _
    unfold nextMessage
    rw [markerStr_len, if_neg (by omega)]
    split
    case _ h => rfl
    case _ p h =>
      rw [hfind0] at h
      injection h with h
      subst h
      rw [if_pos (Or.inl rfl)]
      rw [Nat.zero_add]
      by_cases hm1 : f - 16 ≤ (natToChars eid.length).length
      · -- still inside the idLen digits: no second ':' yet
        have hY : (natToChars eid.length ++ ':' :: (natToChars emsg.length ++ ':' ::
              (eid ++ ':' :: (emsg ++ ':' :: tail4)))).take (f - 16)
            = (natToChars eid.length).take (f - 16) := by
          rw [List.take_append_eq_append_take,
            show f - 16 - (natToChars eid.length).length = 0 by omega]
          simp
        have hfind1 : findCharFrom ':' ((wireFrame eid emsg).take f) 16 = none := by
          rw [findCharFrom, hdrop16, hY, findCharIn_not_mem]
          · rfl
          · intro hmem
            exact colon_not_mem_natToChars eid.length (List.take_subset _ _ hmem)
        split
        case _ h => rfl
        case _ p1 h => rw [hfind1] at h; cases h
      · -- idLen digits and their ':' are present
        have hY : (natToChars eid.length ++ ':' :: (natToChars emsg.length ++ ':' ::
              (eid ++ ':' :: (emsg ++ ':' :: tail4)))).take (f - 16)
            = natToChars eid.length ++ ':' :: (natToChars emsg.length ++ ':' ::
                (eid ++ ':' :: (emsg ++ ':' :: tail4))).take (f - 16 - (natToChars eid.length).length - 1) := by
          rw [List.take_append_eq_append_take,
            List.take_of_length_le (by omega),
            show f - 16 - (natToChars eid.length).length
              = (f - 16 - (natToChars eid.length).length - 1) + 1 by omega,
            List.take_succ_cons, Nat.add_sub_cancel]
        have hfind1 : findCharFrom ':' ((wireFrame eid emsg).take f) 16
            = some ((natToChars eid.length).length + 16) := by
          rw [findCharFrom, hdrop16, hY, findCharIn_append_cons _ _ (colon_not_mem_natToChars _)]
          rfl
        have hdrop17 : ((wireFrame eid emsg).take f).drop ((natToChars eid.length).length + 16 + 1)
            = (natToChars emsg.length ++ ':' :: (eid ++ ':' :: (emsg ++ ':' :: tail4))).take
                (f - 16 - (natToChars eid.length).length - 1) := by
          have h1 : (natToChars eid.length).length + 16 + 1
              = 16 + ((natToChars eid.length).length + 1) := by omega
          rw [h1, ← List.drop_drop, hdrop16, hY, drop_seg _ rfl]
        have hid : (((wireFrame eid emsg).take f).drop 16).take (natToChars eid.length).length
            = natToChars eid.length := by
          rw [hdrop16, hY]; exact take_seg _ rfl
        split
        case _ h => rfl
        case _ p1 h =>
          rw [hfind1] at h
          injection h with h
          subst h
          by_cases hm2 : f - 16 - (natToChars eid.length).length - 1 ≤ (natToChars emsg.length).length
          · -- still inside the msgLen digits
            have hZ : (natToChars emsg.length ++ ':' :: (eid ++ ':' :: (emsg ++ ':' :: tail4))).take
                  (f - 16 - (natToChars eid.length).length - 1)
                = (natToChars emsg.length).take (f - 16 - (natToChars eid.length).length - 1) := by
              rw [List.take_append_eq_append_take,
                show f - 16 - (natToChars eid.length).length - 1 - (natToChars emsg.length).length
                  = 0 by omega]
              simp
            have hfind2 : findCharFrom ':' ((wireFrame eid emsg).take f)
                ((natToChars eid.length).length + 16 + 1) = none := by
              rw [findCharFrom, hdrop17, hZ, findCharIn_not_mem]
              · rfl
              · intro hmem
                exact colon_not_mem_natToChars emsg.length (List.take_subset _ _ hmem)
            split
            case _ h => rfl
            case _ p2 h => rw [hfind2] at h; cases h
          · -- both length fields and separators are present: fail on total length
            have hZ : (natToChars emsg.length ++ ':' :: (eid ++ ':' :: (emsg ++ ':' :: tail4))).take
                  (f - 16 - (natToChars eid.length).length - 1)
                = natToChars emsg.length ++ ':' :: (eid ++ ':' :: (emsg ++ ':' :: tail4)).take
                    (f - 16 - (natToChars eid.length).length - 1 - (natToChars emsg.length).length - 1) := by
              rw [List.take_append_eq_append_take,
                List.take_of_length_le (by omega),
                show f - 16 - (natToChars eid.length).length - 1 - (natToChars emsg.length).length
                  = (f - 16 - (natToChars eid.length).length - 1 - (natToChars emsg.length).length - 1) + 1
                  by omega,
                List.take_succ_cons, Nat.add_sub_cancel]
            have hfind2 : findCharFrom ':' ((wireFrame eid emsg).take f)
                ((natToChars eid.length).length + 16 + 1)
                = some ((natToChars emsg.length).length + ((natToChars eid.length).length + 16 + 1)) := by
              rw [findCharFrom, hdrop17, hZ, findCharIn_append_cons _ _ (colon_not_mem_natToChars _)]
              rfl
            have hmsg : (((wireFrame eid emsg).take f).drop
                  ((natToChars eid.length).length + 16 + 1)).take (natToChars emsg.length).length
                = natToChars emsg.length := by
              rw [hdrop17, hZ]; exact take_seg _ rfl
            split
            case _ h => rw [hfind2] at h
            case _ p2 h =>
              rw [hfind2] at h
              injection h with h
              subst h
              rw [Nat.add_sub_cancel, hid, stoulModel_natToChars,
                Nat.add_sub_cancel, hmsg, stoulModel_natToChars]
              simp only []
              rw [if_pos (by
                rw [show END.length = 3 from rfl]
                rw [show ((natToChars emsg.length).length + ((natToChars eid.length).length + 16 + 1)
                    + eid.length + emsg.length + 4 + 3) % 2 ^ 64 = (wireFrame eid emsg).length from by
                  rw [show (natToChars emsg.length).length + ((natToChars eid.length).length + 16 + 1)
                      + eid.length + emsg.length + 4 + 3 = (wireFrame eid emsg).length from by omega]
                  exact Nat.mod_eq_of_lt hbig]
                omega)]

/-! Bounds on a returned frame length. -/

lemma findCharFrom_ge {c : Char} {s : List Char} {k j : Nat}
    (h : findCharFrom c s k = some j) : k ≤ j := by
  rw [findCharFrom] at h
  cases hin : findCharIn c (s.drop k) with
  | none => rw [hin] at h; cases h
  | some r =>
    rw [hin] at h
    simp only [Option.map_some', Option.some.injEq] at h
    omega

lemma nextMessage_total_le_filled (input : List Char) (filled : Nat) (id c : List Char) (t : Nat)
    (h : nextMessage input filled = ScanOut.found id c t) : t ≤ filled := by
  unfold nextMessage at h
  rw [markerStr_len] at h
  split at h
  · cases h
  · split at h
    · cases h
    · rename_i p hp
      split at h
      · split at h
        · cases h
        · rename_i p1 hp1
          split at h
          · cases h
          · rename_i p2 hp2
            split at h
            · rename_i idLen msgLen hid hmsg
              simp only [show END.length = 3 from rfl] at h
              split at h
              · cases h
              · rename_i hfill
                split at h
                · cases h
                · split at h
                  · cases h
                  · injection h with h1 h2 h3
                    omega
            · cases h
      · cases h

/-! Lemmas about the reader loop. -/

lemma nextMessage_nil : nextMessage [] 0 = ScanOut.noFrame := by decide

lemma scanLoopCb_nil (cb : List (List Char)) (fuel : Nat) :
    scanLoopCb cb fuel [] = ([], [], []) := by
  cases fuel with
  | zero => rfl
  | succ fu =>
    show scanLoopCb cb (fu + 1) [] = ([], [], [])
    rw [scanLoopCb]
    simp [nextMessage_nil]

lemma take_len_eq (eid emsg : List Char) (f : Nat) (hf : f ≤ (wireFrame eid emsg).length) :
    ((wireFrame eid emsg).take f).length = f := by
  rw [List.length_take]; omega

lemma readerScan_incomplete (cb : List (List Char)) (eid emsg : List Char) (f : Nat)
    (hbig : (wireFrame eid emsg).length < 2 ^ 64)
    (hf : f < (wireFrame eid emsg).length) :
    readerScan cb ((wireFrame eid emsg).take f) = ((wireFrame eid emsg).take f, [], []) := by
  have hdl : ((wireFrame eid emsg).take f).length = f := take_len_eq eid emsg f (by omega)
  rw [readerScan, hdl]
  rw [scanLoopCb]
  rw [hdl, nextMessage_wireFrame_take eid emsg f hbig hf]

lemma readerScan_full (cb : List (List Char)) (eid emsg : List Char)
    (hbig : (wireFrame eid emsg).length < 2 ^ 64) :
    readerScan cb (wireFrame eid emsg)
      = ([], [(unescChain eid, unescChain emsg)],
          if unescChain eid ∈ cb then [(unescChain eid, unescChain emsg)] else []) := by
  have hpos : 0 < (wireFrame eid emsg).length := by
    rw [wireFrame_len]; omega
  obtain ⟨L, hL⟩ : ∃ L, (wireFrame eid emsg).length = L + 1 :=
    ⟨(wireFrame eid emsg).length - 1, by omega⟩
  rw [readerScan, hL]
  rw [scanLoopCb]
  rw [nextMessage_wireFrame eid emsg hbig, hL]
  simp only []
  rw [if_pos (Nat.succ_pos L)]
  rw [show (wireFrame eid emsg).drop (L + 1) = [] from by
    rw [← hL]; exact List.drop_length _]
  rw [scanLoopCb_nil]
  simp

lemma deliver_frame_chunks (eid emsg : List Char) (cb : List (List Char))
    (hbig : (wireFrame eid emsg).length < 2 ^ 64) :
    ∀ (chunks : List (List Char)) (f : Nat),
      (∀ ch ∈ chunks, ch ≠ []) →
      wireFrame eid emsg = (wireFrame eid emsg).take f ++ chunks.flatten →
      f < (wireFrame eid emsg).length →
      deliverChunks cb ((wireFrame eid emsg).take f) chunks
        = ([], [(unescChain eid, unescChain emsg)],
            if unescChain eid ∈ cb then [(unescChain eid, unescChain emsg)] else []) := by
  intro chunks
  induction chunks with
  | nil =>
    intro f _ hEq hf
    exfalso
    have hlenEq := congrArg List.length hEq
    rw [List.flatten_nil, List.append_nil, List.length_take] at hlenEq
    omega
  | cons ch rest ih =>
    intro f hne hEq hf
    have hch : ch ≠ [] := hne ch (List.mem_cons_self ch rest)
    have hfle : f ≤ (wireFrame eid emsg).length := le_of_lt hf
    have hlenEq := congrArg List.length hEq
    rw [List.flatten_cons, List.length_append, List.length_append, List.length_take,
      min_eq_left hfle] at hlenEq
    have htake2 : (wireFrame eid emsg).take (f + ch.length)
        = (wireFrame eid emsg).take f ++ ch := by
      conv_lhs => rw [hEq]
      rw [List.take_append_eq_append_take,
        List.take_of_length_le (by rw [List.length_take]; omega),
        List.length_take, min_eq_left hfle, Nat.add_sub_cancel_left,
        List.flatten_cons,
        List.take_append_eq_append_take,
        List.take_of_length_le (le_refl ch.length),
        Nat.sub_self, List.take_zero, List.append_nil]
    have hWEq : wireFrame eid emsg = (wireFrame eid emsg).take (f + ch.length) ++ rest.flatten := by
      rw [htake2, List.append_assoc, ← List.flatten_cons]
      exact hEq
    rw [deliverChunks]
    rw [← htake2]
    by_cases hlt : f + ch.length < (wireFrame eid emsg).length
    · rw [readerScan_incomplete cb eid emsg _ hbig hlt]
      rw [ih (f + ch.length) (fun x hx => hne x (List.mem_cons_of_mem ch hx)) hWEq hlt]
      simp
    · have hjlen : rest.flatten.length = 0 := by omega
      have hrest : rest.flatten = [] := List.length_eq_zero.mp hjlen
      have hrestnil : rest = [] := by
        cases rest with
        | nil => rfl
        | cons r rs =>
          exfalso
          exact hne r (List.mem_cons_of_mem ch (List.mem_cons_self r rs))
            (List.flatten_eq_nil_iff.mp hrest r (List.mem_cons_self r rs))
      have hfc : f + ch.length = (wireFrame eid emsg).length := by omega
      rw [hfc, List.take_length]
      rw [readerScan_full cb eid emsg hbig]
      subst hrestnil
      rw [deliverChunks]
      simp


/-! Claim theorems. -/

/-- C1: the claim states that decoding the frame produced by
`encode(id, payload)` yields back exactly `(id, payload)` for arbitrary
payload bytes.  It fails: for `id = "a"`, `payload = "END"` the encoder
(whose `escape` statics are bound to `PREFIX` by the first call)
replaces `"END"` by `"\NAMEDPIPE"`, and the decoder unescapes that to
`"NAMEDPIPE"`, not `"END"`. -/
theorem c1_roundtrip_fails :
    nextMessage (encodeFrame (strL "a") (strL "END"))
        (encodeFrame (strL "a") (strL "END")).length
      = ScanOut.found (strL "a") (strL "NAMEDPIPE") 38
    ∧ strL "NAMEDPIPE" ≠ strL "END" :=
  ⟨by decide, by decide⟩

/-- C2: the claim states the escape/unescape replacement contract for
every token, regardless of which token the functions were first called
with.  It fails twice over: `unescape("\END\END", END)` — even with the
statics bound to `END` by that very first call — skips one character
past each replacement (`pos += tagLength + 1` after inserting only
`tagLength` characters) and returns `"END\END"` where the contract
(`specUnescape`) demands `"ENDEND"`; and `escape(s, START)` in a process
whose first `escape` call used `PREFIX` inserts `"\NAMEDPIPE"` instead
of `"\START"`. -/
theorem c2_escape_contract_fails :
    unescapeGen END END (strL "\\END\\END") = strL "END\\END"
    ∧ specUnescape END (strL "\\END\\END") = strL "ENDEND"
    ∧ strL "END\\END" ≠ strL "ENDEND"
    ∧ escapeGen PFX START (strL "START") = strL "\\NAMEDPIPE" :=
  ⟨by decide, by decide, by decide, by decide⟩

/-- C3 counterexample: the claim says decode unescapes in the exact
reverse order END, START, PREFIX.  On the raw frame
`"NAMEDPIPE:START:1:4:a:\END:END:"` the decoder leaves the extracted
payload `"\END"` untouched (its unescape chain, statics bound to
PREFIX, only ever searches for `"\NAMEDPIPE"`), while reverse-order
unescaping (`specRevUnescChain`) would produce `"END"`. -/
theorem c3_reverse_order_counterexample :
    nextMessage (strL "NAMEDPIPE:START:1:4:a:\\END:END:") 31
      = ScanOut.found (strL "a") (strL "\\END") 31
    ∧ specRevUnescChain (strL "\\END") = strL "END"
    ∧ strL "\\END" ≠ strL "END" :=
  ⟨by decide, by decide, by decide⟩

/-- C3 amended: on encode the tokens are escaped in the fixed order
PREFIX, START, END (innermost first), and on decode the extracted
identifier and payload are unescaped in the SAME order PREFIX, START,
END — not the reverse.  The hypothesis is the realizability bound: an
actual `std::string` buffer holds fewer than `2 ^ 64` bytes (its length
is a `size_t`). -/
theorem c3_amended_same_order (id msg : List Char)
    (hbig : (encodeFrame id msg).length < 2 ^ 64) :
    nextMessage (encodeFrame id msg) (encodeFrame id msg).length
      = ScanOut.found
          (unescapeGen PFX END (unescapeGen PFX START (unescapeGen PFX PFX
            (escapeGen PFX END (escapeGen PFX START (escapeGen PFX PFX id))))))
          (unescapeGen PFX END (unescapeGen PFX START (unescapeGen PFX PFX
            (escapeGen PFX END (escapeGen PFX START (escapeGen PFX PFX msg))))))
          (encodeFrame id msg).length := by
  rw [encodeFrame_eq] at hbig ⊢
  exact nextMessage_wireFrame _ _ hbig

/-- C3 amended witness: the frame for `("a", "b")`. -/
theorem c3_amended_witness :
    (encodeFrame (strL "a") (strL "b")).length < 2 ^ 64
    ∧ nextMessage (encodeFrame (strL "a") (strL "b")) (encodeFrame (strL "a") (strL "b")).length
      = ScanOut.found
          (unescapeGen PFX END (unescapeGen PFX START (unescapeGen PFX PFX
            (escapeGen PFX END (escapeGen PFX START (escapeGen PFX PFX (strL "a")))))))
          (unescapeGen PFX END (unescapeGen PFX START (unescapeGen PFX PFX
            (escapeGen PFX END (escapeGen PFX START (escapeGen PFX PFX (strL "b")))))))
          (encodeFrame (strL "a") (strL "b")).length :=
  ⟨by decide, c3_amended_same_order (strL "a") (strL "b") (by decide)⟩

/-- C4: the claim says the scanner accepts as frame start only an
occurrence of the literal marker string `"NAMEDPIPE:START:"`.  The
source instead calls `find_first_of`, which matches any single
character of that string: prepending one letter `'A'` to a valid frame
makes the scanner lock onto position 0, parse an empty length field
there, and report no frame — while the claim demands that the genuine
marker at offset 1 be found and the frame parsed.  Moreover an escaped
marker occurrence is not "skipped with scanning continuing forward":
the loop re-finds the same position forever (`hang`). -/
theorem c4_marker_search_is_set_search :
    nextMessage ('A' :: encodeFrame (strL "a") (strL "b")) 29 = ScanOut.noFrame
    ∧ nextMessage (encodeFrame (strL "a") (strL "b")) 28
        = ScanOut.found (strL "a") (strL "b") 28
    ∧ nextMessage (strL "x\\NAMEDPIPE:START:1:1:a:b:END:") 30 = ScanOut.hang :=
  ⟨by decide, by decide, by decide⟩

/-- C5: the claim says a frame is returned only when the literal token
`"END"` occupies the computed trailing offset.  The source checks that
offset with `find_first_of`, i.e. accepts ANY character of
`{'E','N','D'}` there and ignores the two following bytes: the buffer
`"NAMEDPIPE:START:1:1:a:b:NOP:"`, whose trailing token is `"NOP"`, is
accepted as a complete frame. -/
theorem c5_end_token_not_verified :
    nextMessage (strL "NAMEDPIPE:START:1:1:a:b:NOP:") 28
      = ScanOut.found (strL "a") (strL "b") 28
    ∧ strL "NOP" ≠ END :=
  ⟨by decide, by decide⟩

/-- C6: the claim says the write loop retries until every byte of the
full encoded frame has been transmitted.  The loop condition compares
`totalWritten` against `msg.length()` (the escaped message, 1 byte
here), not `fullMsg.length()` (28 bytes): a first `::write` accepting
one byte ends the loop with 27 frame bytes never sent. -/
theorem c6_write_loop_stops_early :
    writeLoopModel (escChain (strL "b")).length
        (encodeFrame (strL "a") (strL "b")).length [some 1] 0 = some (Except.ok 1)
    ∧ 1 < (encodeFrame (strL "a") (strL "b")).length :=
  ⟨rfl, by decide⟩

/-- C7: fragmentation invariance.  Splitting any encoded frame into any
sequence of non-empty chunks and appending them to the reader one at a
time (scan/consume after each append) produces exactly the same result
— one decoded message, same identifier and payload, same invocations,
empty remaining buffer — as delivering the whole frame in one read. -/
theorem c7_fragmentation_invariance (id msg : List Char) (cb : List (List Char))
    (chunks : List (List Char)) (hne : ∀ ch ∈ chunks, ch ≠ [])
    (hjoin : chunks.flatten = encodeFrame id msg)
    (hbig : (encodeFrame id msg).length < 2 ^ 64) :
    deliverChunks cb [] chunks = deliverChunks cb [] [encodeFrame id msg]
    ∧ (deliverChunks cb [] [encodeFrame id msg]).2.1.length = 1 := by
  rw [encodeFrame_eq] at hbig
  have hjoin' : chunks.flatten = wireFrame (escChain id) (escChain msg) := by
    rw [hjoin, encodeFrame_eq]
  have hpos : 0 < (wireFrame (escChain id) (escChain msg)).length := by
    rw [wireFrame_len]; omega
  have hsingle : deliverChunks cb [] [encodeFrame id msg]
      = ([], [(unescChain (escChain id), unescChain (escChain msg))],
          if unescChain (escChain id) ∈ cb then
            [(unescChain (escChain id), unescChain (escChain msg))] else []) := by
    rw [encodeFrame_eq, deliverChunks, List.nil_append, readerScan_full cb _ _ hbig,
      deliverChunks]
    simp
  have hchunks : deliverChunks cb [] chunks
      = ([], [(unescChain (escChain id), unescChain (escChain msg))],
          if unescChain (escChain id) ∈ cb then
            [(unescChain (escChain id), unescChain (escChain msg))] else []) := by
    have h0 : ([] : List Char) = (wireFrame (escChain id) (escChain msg)).take 0 := rfl
    rw [h0]
    exact deliver_frame_chunks (escChain id) (escChain msg) cb hbig chunks 0 hne
      (by rw [List.take_zero, List.nil_append, hjoin']) hpos
  rw [hchunks, hsingle]
  exact ⟨rfl, rfl⟩

/-- C7 witness: a concrete two-chunk split of the frame for
`("a", "b")` delivers the same single message as the whole frame. -/
theorem c7_witness :
    (∀ ch ∈ ([strL "NAMEDPIPE:STAR", strL "T:1:1:a:b:END:"] : List (List Char)), ch ≠ [])
    ∧ ([strL "NAMEDPIPE:STAR", strL "T:1:1:a:b:END:"] : List (List Char)).flatten
        = encodeFrame (strL "a") (strL "b")
    ∧ deliverChunks [] [] [strL "NAMEDPIPE:STAR", strL "T:1:1:a:b:END:"]
        = deliverChunks [] [] [encodeFrame (strL "a") (strL "b")] :=
  ⟨by decide, by decide,
    (c7_fragmentation_invariance (strL "a") (strL "b") []
      [strL "NAMEDPIPE:STAR", strL "T:1:1:a:b:END:"] (by decide) (by decide) (by decide)).1⟩

/-- C8: a decoded frame is always consumed in full (the remaining
buffer is empty after the scan), and the handler is invoked — within
the same scan step, i.e. synchronously on the reader's thread —
exactly when the decoded identifier is registered; an unregistered
identifier produces no invocation and no error (the model is total and
has no error outcome on this path). -/
theorem c8_unregistered_consumed_silently (id msg : List Char) (cb : List (List Char))
    (hbig : (encodeFrame id msg).length < 2 ^ 64) :
    readerScan cb (encodeFrame id msg)
      = ([], [(unescChain (escChain id), unescChain (escChain msg))],
          if unescChain (escChain id) ∈ cb then
            [(unescChain (escChain id), unescChain (escChain msg))] else []) := by
  rw [encodeFrame_eq] at hbig ⊢
  exact readerScan_full cb _ _ hbig

/-- C8 witness: the frame for `("a", "b")` against the callback tables
`[]` (unregistered: no invocation) and `["a"]` (registered: one
invocation); the buffer is consumed either way. -/
theorem c8_witness :
    readerScan [] (encodeFrame (strL "a") (strL "b"))
      = ([], [(unescChain (escChain (strL "a")), unescChain (escChain (strL "b")))],
          if unescChain (escChain (strL "a")) ∈ ([] : List (List Char)) then
            [(unescChain (escChain (strL "a")), unescChain (escChain (strL "b")))] else [])
    ∧ readerScan [strL "a"] (encodeFrame (strL "a") (strL "b"))
      = ([], [(unescChain (escChain (strL "a")), unescChain (escChain (strL "b")))],
          if unescChain (escChain (strL "a")) ∈ [strL "a"] then
            [(unescChain (escChain (strL "a")), unescChain (escChain (strL "b")))] else []) :=
  ⟨c8_unregistered_consumed_silently (strL "a") (strL "b") [] (by decide),
    c8_unregistered_consumed_silently (strL "a") (strL "b") [strL "a"] (by decide)⟩

/-- C9: `write` on a read-mode instance, and `start`/`addCallback` on a
write-mode instance, fail with the access-violation error and return
the instance state unchanged — nothing transmitted, no reader thread
started, callback table untouched. -/
theorem c9_access_mode_guards (st : PipeSt) (id msg : List Char) (sched : List (Option Nat)) :
    (st.access = PipeAccess.Read →
        writeOp st id msg sched = (Except.error PipeErr.accessViolation, st))
    ∧ (st.access = PipeAccess.Write →
        startOp st = (Except.error PipeErr.accessViolation, st)
        ∧ addCallbackOp st id = (Except.error PipeErr.accessViolation, st)) := by
  constructor
  · intro h
    simp [writeOp, h]
  · intro h
    constructor
    · simp [startOp, h]
    · simp [addCallbackOp, h]

/-- C9 witness: concrete read-mode and write-mode instances. -/
theorem c9_witness :
    writeOp ⟨PipeAccess.Read, [], false, []⟩ (strL "a") (strL "b") []
        = (Except.error PipeErr.accessViolation, ⟨PipeAccess.Read, [], false, []⟩)
    ∧ startOp ⟨PipeAccess.Write, [], false, []⟩
        = (Except.error PipeErr.accessViolation, ⟨PipeAccess.Write, [], false, []⟩)
    ∧ addCallbackOp ⟨PipeAccess.Write, [], false, []⟩ (strL "a")
        = (Except.error PipeErr.accessViolation, ⟨PipeAccess.Write, [], false, []⟩) :=
  ⟨(c9_access_mode_guards ⟨PipeAccess.Read, [], false, []⟩ (strL "a") (strL "b") []).1 rfl,
    ((c9_access_mode_guards ⟨PipeAccess.Write, [], false, []⟩ (strL "a") (strL "b") []).2 rfl).1,
    ((c9_access_mode_guards ⟨PipeAccess.Write, [], false, []⟩ (strL "a") (strL "b") []).2 rfl).2⟩

/-- C10 counterexample: the claim asserts every returned frame has
`totalLength` at least the fixed frame overhead (26 bytes for the
shortest frame).  It fails: `totalLength` is a `size_t` and wraps.  On
the 22-byte buffer `":zzzzzEzz:zzzzzz-18:0:"` the scanner locks onto
the `':'` at offset 0 (character-set search), parses the length fields
`"-18"` — which `stoul` wraps to `2 ^ 64 - 18` — and `"0"`, computes
`totalLength = (21 + (2 ^ 64 - 18) + 0 + 7) mod 2 ^ 64 = 10`, finds
`'E'` at offset 6 and `':'` at offset 9, and returns a frame with
`totalLength = 10 < 26`. -/
theorem c10_wrap_counterexample :
    nextMessage (strL ":zzzzzEzz:zzzzzz-18:0:") 22 = ScanOut.found (strL "") (strL "") 10
    ∧ 10 < 26 :=
  ⟨by decide, by decide⟩

/-- C10 amended: whenever the scanner returns a frame, its
`totalLength` is at most `filled` (the `filled < totalLength` guard
runs on the post-wrap value), so the reader loop's consume step never
removes more bytes than are buffered and the remaining `filled` count
never underflows; and since the loop only consumes messages with
`totalLength > 0`, every dispatch strictly shrinks the buffered data.
The lower bound "at least the fixed frame overhead" claimed for
`totalLength` does not hold (see the counterexample): `size_t`
wrap-around of `totalLength` via `stoul`'s minus-sign wrap can produce
accepted frames with `totalLength` as small as 10. -/
theorem c10_consume_bounds (input : List Char) (filled : Nat) (id c : List Char) (t : Nat)
    (h : nextMessage input filled = ScanOut.found id c t) :
    t ≤ filled ∧ (0 < t → filled - t < filled) := by
  have h1 := nextMessage_total_le_filled input filled id c t h
  exact ⟨h1, fun h2 => by omega⟩

/-- C10 witness: the frame for `("a", "b")` at exactly 28 buffered
bytes. -/
theorem c10_witness : 28 ≤ 28 ∧ (0 < 28 → 28 - 28 < 28) :=
  c10_consume_bounds (encodeFrame (strL "a") (strL "b")) 28 (strL "a") (strL "b") 28 (by decide)

end PipeCxx
